import Mathlib

/-!
Verification of the chunked-upload client subsystem of sw3do/local-drive.

The definitions below are a shallow embedding of the TypeScript client code:

* `src/frontend/src/lib/api.ts`, function `uploadFileChunked` (the upload
  orchestrator: initiate, sequential chunk loop with axios progress
  callbacks, complete, and the catch handler), together with the byte-range
  arithmetic of lines 288-290;
* the `ChunkedFileUpload` component (`validateFile`, `handleFileSelect`,
  `cancelUpload`).

Network interactions are modelled by an explicit server oracle
(`ServerEnv`) supplying the outcome of each request, and a run of
`uploadFileChunked` is embedded as the list of observable events it
produces (requests issued, acknowledgements received, progress callbacks
invoked) together with its result.  JavaScript numbers are embedded as
`Nat` for byte counts and as `ℚ` for the fractional progress arithmetic
of the callbacks.
-/

namespace LocalDrive

/-! ### Byte-range arithmetic of the chunk loop (api.ts:288-290) -/

/-- Source line `const start = (chunkNumber - 1) * chunkSize` (api.ts:288). -/

def chunkStart (chunkSize n : Nat) : Nat := (n - 1) * chunkSize

/-- Source line `const end = Math.min(start + chunkSize, file.size)` (api.ts:289).
`end` is a Lean keyword, hence the longer name. -/

def chunkEnd (fileSize chunkSize n : Nat) : Nat :=
  min (chunkStart chunkSize n + chunkSize) fileSize

/-- Number of bytes of chunk `n`: the length of
`file.slice(start, end)` (api.ts:290). -/

def chunkLen (fileSize chunkSize n : Nat) : Nat :=
  chunkEnd fileSize chunkSize n - chunkStart chunkSize n

/-- Modelled from the spec: `total_chunks = ceil(total_size / chunk_size)`
(§3 of the spec; the Rust server that computes the value returned by
`initiate` is not part of the sources, the client receives it in
`InitiateChunkedUploadResponse`). -/

def totalChunks (totalSize chunkSize : Nat) : Nat :=
  (totalSize + chunkSize - 1) / chunkSize





/-! ### Data model of the orchestrator (api.ts) -/

/-- Status of a client-side progress record
(`ChunkedUploadProgress.status`, api.ts:131). -/

inductive UploadStatus where
  | uploading
  | completed
  | error
  | cancelled
deriving DecidableEq

/-- The server's file record (`FileInfo`, api.ts:53-66).  The orchestrator
treats it opaquely and only hands it back to the caller, so just the
identifying fields are embedded. -/

structure FileInfo where
  id : String
  original_filename : String
  file_size : Nat
deriving DecidableEq, Inhabited

/-- A progress record as delivered to the `onProgress` callback
(`ChunkedUploadProgress`, api.ts:125-133).  `uploadedSize` and `progress`
are rationals because the intra-chunk callback computes
`(chunkProgress / 100) * currentChunkSize` (api.ts:294). -/

structure ChunkedUploadProgress where
  uploadId : String
  filename : String
  totalSize : Nat
  uploadedSize : ℚ
  progress : ℚ
  status : UploadStatus
  error : Option String
deriving DecidableEq

/-- Which statement of `uploadFileChunked` emitted a progress event. -/

inductive ProgressOrigin where
  /-- the axios `onUploadProgress` callback inside the chunk request
  (api.ts:292-306) -/
  | intraChunk
  /-- the event emitted after a chunk request has resolved
  (api.ts:310-317) -/
  | postChunk
  /-- the event emitted after `completeChunkedUpload` resolved
  (api.ts:322-329) -/
  | afterComplete
  /-- the catch handler (api.ts:333-341) -/
  | onError
deriving DecidableEq

/-- Observable events of one run of `uploadFileChunked`: the requests it
issues, their outcomes, and every invocation of the progress callback. -/

inductive Event where
  | initiateCall (filename : String) (total_size chunk_size : Nat)
  | initiateOk (upload_id : String) (total_chunks : Nat)
  | chunkRequest (upload_id : String) (chunkNumber start fin : Nat)
  | chunkAck (chunkNumber len : Nat)
  | chunkFail (chunkNumber : Nat) (msg : String)
  | completeCall (upload_id : String)
  | completeOk (fi : FileInfo)
  | completeFail (msg : String)
  | progressEv (origin : ProgressOrigin) (p : ChunkedUploadProgress)
deriving DecidableEq, Inhabited

/-- Server oracle: the outcome of each request the client may issue, plus
the percentages the transport reports to the intra-chunk
`onUploadProgress` callback while a chunk request is in flight. -/

structure ServerEnv where
  initResult : Except String (String × Nat)
  chunkPcts : Nat → List Nat
  chunkResult : Nat → Except String Unit
  completeResult : Except String FileInfo

/-- One intra-chunk progress callback invocation (api.ts:292-306):
`chunkUploadedSize = (chunkProgress / 100) * currentChunkSize`,
`totalUploadedSize = uploadedSize + chunkUploadedSize`,
`totalProgress = (totalUploadedSize / file.size) * 100`. -/

def intraEvent (uid fn : String) (fs uploadedSize len pct : Nat) : Event :=
  let chunkUploadedSize : ℚ := ((pct : ℚ) / 100) * (len : ℚ)
  let totalUploadedSize : ℚ := (uploadedSize : ℚ) + chunkUploadedSize
  .progressEv .intraChunk
    { uploadId := uid, filename := fn, totalSize := fs,
      uploadedSize := totalUploadedSize,
      progress := totalUploadedSize / (fs : ℚ) * 100,
      status := .uploading, error := none }

/-- The progress event emitted after a chunk request resolves
(api.ts:310-317), with the new cumulative `uploadedSize`. -/

def postEvent (uid fn : String) (fs newUploaded : Nat) : Event :=
  .progressEv .postChunk
    { uploadId := uid, filename := fn, totalSize := fs,
      uploadedSize := (newUploaded : ℚ),
      progress := (newUploaded : ℚ) / (fs : ℚ) * 100,
      status := .uploading, error := none }

/-- The progress event emitted by the catch handler (api.ts:333-341):
`uploadId: ''`, `uploadedSize: 0`, `progress: 0`, `status: 'error'`. -/

def errorEvent (fn : String) (fs : Nat) (msg : String) : Event :=
  .progressEv .onError
    { uploadId := "", filename := fn, totalSize := fs,
      uploadedSize := 0, progress := 0,
      status := .error, error := some msg }

/-- The progress event emitted after `completeChunkedUpload` resolves
(api.ts:322-329): `uploadedSize: file.size`, `progress: 100`,
`status: 'completed'`. -/

def completedEvent (uid fn : String) (fs : Nat) : Event :=
  .progressEv .afterComplete
    { uploadId := uid, filename := fn, totalSize := fs,
      uploadedSize := (fs : ℚ), progress := 100,
      status := .completed, error := none }

/-- The `for` loop of api.ts:287-318, embedded over the list of chunk
numbers still to transmit, threading the cumulative `uploadedSize`
accumulator (api.ts:285, 308).  Each iteration issues the chunk request,
delivers the transport's intra-chunk progress callbacks, and either
receives the acknowledgement (then emits the post-chunk progress event and
continues) or fails (the thrown error aborts the loop). -/

def runChunkLoop (env : ServerEnv) (fn : String) (fs cs : Nat) (uid : String) :
    List Nat → Nat → List Event × Except String Nat
  | [], uploadedSize => ([], .ok uploadedSize)
  | n :: rest, uploadedSize =>
    let s := chunkStart cs n
    let f := chunkEnd fs cs n
    let len := f - s
    let intra := (env.chunkPcts n).map (intraEvent uid fn fs uploadedSize len)
    match env.chunkResult n with
    | .error msg =>
      (Event.chunkRequest uid n s f :: intra ++ [Event.chunkFail n msg], .error msg)
    | .ok _ =>
      let newUp := uploadedSize + len
      let r := runChunkLoop env fn fs cs uid rest newUp
      (Event.chunkRequest uid n s f ::
        intra ++ Event.chunkAck n len :: postEvent uid fn fs newUp :: r.1, r.2)

/-- Function `uploadFileChunked` (api.ts:272-344): initiate, the chunk loop, then
complete; any thrown error reaches the catch handler, which emits the
error progress event and rethrows. -/

def uploadFileChunked (env : ServerEnv) (fn : String) (fs cs : Nat) :
    List Event × Except String FileInfo :=
  match env.initResult with
  | .error msg =>
    ([.initiateCall fn fs cs, errorEvent fn fs msg], .error msg)
  | .ok (uid, tc) =>
    let r := runChunkLoop env fn fs cs uid (List.range' 1 tc) 0
    let base := Event.initiateCall fn fs cs :: Event.initiateOk uid tc :: r.1
    match r.2 with
    | .error msg => (base ++ [errorEvent fn fs msg], .error msg)
    | .ok _ =>
      match env.completeResult with
      | .error msg =>
        (base ++ [.completeCall uid, .completeFail msg, errorEvent fn fs msg],
         .error msg)
      | .ok fi =>
        (base ++ [.completeCall uid, .completeOk fi, completedEvent uid fn fs],
         .ok fi)

/-! ### Observations on event traces -/

/-- True exactly on `initiateCall` events. -/

def isInitiateCall : Event → Bool
  | .initiateCall _ _ _ => true
  | _ => false

/-- True exactly on `chunkRequest` events. -/

def isChunkRequestEv : Event → Bool
  | .chunkRequest _ _ _ _ => true
  | _ => false

/-- True exactly on `completeCall` events. -/

def isCompleteCallEv : Event → Bool
  | .completeCall _ => true
  | _ => false

/-- The subsequence of outgoing API calls (initiate, chunk, complete). -/

def callEvents (t : List Event) : List Event :=
  t.filter fun e => isInitiateCall e || isChunkRequestEv e || isCompleteCallEv e

/-- The chunk numbers of the chunk requests, in order of issue. -/

def reqNumbers (t : List Event) : List Nat :=
  t.filterMap fun e =>
    match e with
    | .chunkRequest _ n _ _ => some n
    | _ => none

/-- How many chunk requests for chunk `n` a trace contains. -/

def countChunkRequests (t : List Event) (n : Nat) : Nat :=
  (reqNumbers t).count n

/-- How many initiate calls a trace contains. -/

def countInitiates (t : List Event) : Nat :=
  (t.filter isInitiateCall).length

/-- The `uploadedSize` values delivered to the progress callback,
in delivery order. -/

def progressSizes (t : List Event) : List ℚ :=
  t.filterMap fun e =>
    match e with
    | .progressEv _ p => some p.uploadedSize
    | _ => none

/-- The `uploadedSize` values of the post-acknowledgement progress events
only (api.ts:310-317), in delivery order. -/

def postChunkSizes (t : List Event) : List ℚ :=
  t.filterMap fun e =>
    match e with
    | .progressEv .postChunk p => some p.uploadedSize
    | _ => none

/-- Bytes acknowledged by an event: the chunk length for `chunkAck`,
zero otherwise. -/

def ackLen : Event → Nat
  | .chunkAck _ len => len
  | _ => 0

/-- Total bytes the server has acknowledged over a whole trace. -/

def confirmedBytes (t : List Event) : Nat := (t.map ackLen).sum

/-- Bytes the server has acknowledged strictly before position `i`. -/

def confirmedBefore (t : List Event) (i : Nat) : Nat :=
  confirmedBytes (t.take i)

/-- True on progress events whose `progress` field equals exactly 100. -/

def is100Progress : Event → Bool
  | .progressEv _ p => decide (p.progress = 100)
  | _ => false

/-- True exactly on `completeOk` events (the resolution of
`completeChunkedUpload`). -/

def isCompleteOkEv : Event → Bool
  | .completeOk _ => true
  | _ => false

/-- True on progress events with `status = completed`. -/

def isCompletedStatus : Event → Bool
  | .progressEv _ p => decide (p.status = .completed)
  | _ => false

/-- True on progress events with `status = cancelled`. -/

def isCancelledStatus : Event → Bool
  | .progressEv _ p => decide (p.status = .cancelled)
  | _ => false

/-- Relation `Precedes p q t`: every position satisfying `q` is preceded by an
earlier position satisfying `p`. -/

def Precedes (p q : Event → Bool) (t : List Event) : Prop :=
  ∀ i, i < t.length → q (t.getD i default) = true →
    ∃ j, j < i ∧ p (t.getD j default) = true

/-- Boolean check that every post-acknowledgement progress event reports
exactly the bytes acknowledged so far: scans the trace threading the
acknowledged-byte accumulator. -/

def postMatches (t : List Event) (acc : Nat) : Bool :=
  match t with
  | [] => true
  | .chunkAck _ len :: rest => postMatches rest (acc + len)
  | .progressEv .postChunk p :: rest =>
    decide (p.uploadedSize = (acc : ℚ)) && postMatches rest acc
  | _ :: rest => postMatches rest acc

/-- Boolean check that a list of rationals is non-decreasing. -/

def nondecreasing : List ℚ → Bool
  | [] => true
  | [_] => true
  | a :: b :: rest => decide (a ≤ b) && nondecreasing (b :: rest)

/-- One step of the sequentiality automaton: the state is
`some (next, inflight)` where `next` is the next chunk number allowed to
be requested and `inflight` records whether a chunk request is pending;
`none` means the discipline has been violated. -/

def seqStep (st : Option (Nat × Bool)) (e : Event) : Option (Nat × Bool) :=
  match st, e with
  | none, _ => none
  | some (next, inflight), .chunkRequest _ n _ _ =>
    if inflight = false ∧ n = next then some (next, true) else none
  | some (next, inflight), .chunkAck n _ =>
    if inflight = true ∧ n = next then some (next + 1, false) else none
  | some (next, inflight), .chunkFail n _ =>
    if inflight = true ∧ n = next then some (next, false) else none
  | some st', _ => some st'

/-- Run the sequentiality automaton over a trace. -/

def seqRun (t : List Event) (st : Option (Nat × Bool)) : Option (Nat × Bool) :=
  t.foldl seqStep st

/-! ### The claims C2-C6 as stated -/

/-- Every progress event whose `progress` equals 100 comes strictly after
a resolution of `completeChunkedUpload`. -/

def noEarly100 (t : List Event) : Bool :=
  (List.range t.length).all fun i =>
    !(is100Progress (t.getD i default)) ||
      ((List.range i).any fun j => isCompleteOkEv (t.getD j default))

/-- C2 as stated: no progress event with `progress = 100` is delivered
before `completeChunkedUpload` resolves. -/

def claimC2 (t : List Event) : Prop := noEarly100 t = true

/-- Every progress event reports at most the bytes the server has
acknowledged before it was delivered. -/

def confirmedOnly (t : List Event) : Bool :=
  (List.range t.length).all fun i =>
    match t.getD i default with
    | .progressEv _ p => decide (p.uploadedSize ≤ (confirmedBefore t i : ℚ))
    | _ => true

/-- C3 as stated: the `uploadedSize` values delivered to the progress
callback are monotonically non-decreasing, and no progress event counts
bytes of a chunk that has not yet been acknowledged by the server. -/

def claimC3 (t : List Event) : Prop :=
  nondecreasing (progressSizes t) = true ∧ confirmedOnly t = true

/-- The component's cancel handler (`cancelUpload`, ChunkedFileUpload
component) sends a server-side cancel request and removes the item from
the component's upload list; the chunk loop of `uploadFileChunked`
(api.ts:287-318) contains no cancellation token, abort signal or flag
check, so the orchestrator's behaviour does not depend on whether or when
a cancel was requested.  This embedding records that absence: the
cancel-request parameter is accepted and, exactly as in the source, never
consulted. -/

def uploadFileChunkedWithCancel (_cancelAfterChunk : Option Nat)
    (env : ServerEnv) (fn : String) (fs cs : Nat) :
    List Event × Except String FileInfo :=
  uploadFileChunked env fn fs cs

/-- C4 as stated: when cancellation is requested after chunk `k`, the
orchestrator stops issuing further chunk requests (no request beyond `k`)
and surfaces a cancelled terminal state. -/

def claimC4 : Prop :=
  ∀ (k : Nat) (env : ServerEnv) (fn : String) (fs cs : Nat),
    (∀ n ∈ reqNumbers (uploadFileChunkedWithCancel (some k) env fn fs cs).1,
      n ≤ k) ∧
    ∃ e ∈ (uploadFileChunkedWithCancel (some k) env fn fs cs).1,
      isCancelledStatus e = true

/-- C5 as stated: when a chunk upload fails, the orchestrator retries
that chunk (a second request for it is issued) without restarting the
whole session (exactly one initiate call, and no chunk that was already
acknowledged is re-sent). -/

def claimC5 : Prop :=
  ∀ (env : ServerEnv) (fn : String) (fs cs n : Nat) (msg : String),
    Event.chunkFail n msg ∈ (uploadFileChunked env fn fs cs).1 →
    2 ≤ countChunkRequests (uploadFileChunked env fn fs cs).1 n ∧
    countInitiates (uploadFileChunked env fn fs cs).1 = 1 ∧
    ∀ m len, Event.chunkAck m len ∈ (uploadFileChunked env fn fs cs).1 →
      countChunkRequests (uploadFileChunked env fn fs cs).1 m ≤ 1

/-- The last event of the trace is a progress event with `status = error`,
the given human-readable reason, and the given `uploadedSize`. -/

def lastIsErrorWith (t : List Event) (msg : String) (size : ℚ) : Bool :=
  match t.getLast? with
  | some (.progressEv _ p) =>
    decide (p.status = .error) && decide (p.error = some msg) &&
      decide (p.uploadedSize = size)
  | _ => false

/-- C6 as stated: whenever an upload fails, the orchestrator surfaces a
terminal error event carrying the human-readable reason and the partial
progress achieved so far (the bytes confirmed before the failure), and
the failure is propagated to the caller. -/

def claimC6 : Prop :=
  ∀ (env : ServerEnv) (fn : String) (fs cs : Nat) (msg : String),
    (uploadFileChunked env fn fs cs).2 = .error msg →
    lastIsErrorWith (uploadFileChunked env fn fs cs).1 msg
      ((confirmedBytes (uploadFileChunked env fn fs cs).1 : ℚ)) = true

/-! ### Concrete server oracles used by counterexamples and witnesses -/

/-- One chunk of one byte; everything succeeds. -/

def envC2 : ServerEnv :=
  { initResult := .ok ("u", 1), chunkPcts := fun _ => [],
    chunkResult := fun _ => .ok (),
    completeResult := .ok { id := "id2", original_filename := "f.bin", file_size := 1 } }

/-- Two one-byte chunks; the transport reports 50% mid-flight on chunk 1,
chunk 1 is acknowledged, chunk 2 fails. -/

def envC3 : ServerEnv :=
  { initResult := .ok ("u", 2),
    chunkPcts := fun n => if n = 1 then [50] else [],
    chunkResult := fun n => if n = 1 then .ok () else .error "chunk failed",
    completeResult := .ok { id := "id3", original_filename := "f.bin", file_size := 2 } }

/-- Two one-byte chunks, everything succeeds (used to show the loop keeps
issuing requests after a cancel requested at chunk 1). -/

def envC4 : ServerEnv :=
  { initResult := .ok ("u", 2), chunkPcts := fun _ => [],
    chunkResult := fun _ => .ok (),
    completeResult := .ok { id := "id4", original_filename := "f.bin", file_size := 2 } }

/-- A single chunk whose upload fails. -/

def envC5 : ServerEnv :=
  { initResult := .ok ("u", 1), chunkPcts := fun _ => [],
    chunkResult := fun _ => .error "chunk failed",
    completeResult := .ok { id := "id5", original_filename := "f.bin", file_size := 1 } }

/-- Two one-byte chunks; chunk 1 is acknowledged, chunk 2 fails. -/

def envC6 : ServerEnv :=
  { initResult := .ok ("u", 2), chunkPcts := fun _ => [],
    chunkResult := fun n => if n = 1 then .ok () else .error "chunk failed",
    completeResult := .ok { id := "id6", original_filename := "f.bin", file_size := 2 } }






/-! ### Structural lemmas about traces -/








/-! ### Trace shapes of the four outcome branches -/









/-! ### The sequentiality automaton over the traces -/








/-! ### Request counting -/






/-! ### Confirmed-progress bookkeeping (amended C3) -/







/-! ### The ChunkedFileUpload component (validateFile, handleFileSelect,
cancelUpload) -/

/-- The fields of a browser `File` object the component reads:
`file.name`, `file.size` and `file.type`. -/

structure JSFile where
  name : String
  size : Nat
  mimeType : String
deriving DecidableEq

/-- Expression `Math.round(maxFileSize / (1024 * 1024))`: round-half-up division by
one MiB, as used in the size-limit error message. -/

def roundMB (m : Nat) : Nat := (2 * m + 1048576) / 2097152

/-- Expression `file.name.split('.').pop()?.toLowerCase()`: the last dot-separated
component of the name, lowercased (for a name with no dot this is the
whole name, as in JavaScript). -/

def fileExtension (file : JSFile) : String :=
  ((file.name.split (fun c => c == '.')).getLastD "").toLower

/-- The accepted-type test of `validateFile`: an entry starting with a dot
is compared (without the dot) against the file extension; any other entry
must equal the MIME type or be the wildcard `prefix + "/*"` of the MIME
type's first component. -/

def isValidType (accepted : List String) (file : JSFile) : Bool :=
  accepted.any fun ty =>
    if ty.startsWith "." then ty.drop 1 == fileExtension file
    else ty == file.mimeType ||
      ty == ((file.mimeType.split (fun c => c == '/')).headD "" ++ "/*")

/-- The accepted-file-types part of `validateFile` (runs only when the
list is non-empty). -/

def typeCheck (accepted : List String) (file : JSFile) : Option String :=
  if 0 < accepted.length then
    if isValidType accepted file then none
    else some ("File type not supported. Accepted types: " ++
      String.intercalate ", " accepted)
  else none

/-- Function `validateFile` of the ChunkedFileUpload component: the size limit is
checked first (`maxFileSize` defaults to `Infinity`, embedded as `none`,
which no size exceeds), then the accepted-type list. -/

def validateFile (maxFileSize : Option Nat) (accepted : List String)
    (file : JSFile) : Option String :=
  match maxFileSize with
  | some m =>
    if m < file.size then
      some ("File size exceeds " ++ toString (roundMB m) ++ "MB limit")
    else typeCheck accepted file
  | none => typeCheck accepted file

/-- Outcome of `handleFileSelect`: either the whole selection is rejected
by the single-file guard, or per-file validation splits the selection into
started uploads and alerted error lines. -/

inductive SelectResult where
  | rejectedMultiple
  | proceed (uploads : List JSFile) (errors : List String)
deriving DecidableEq

/-- Function `handleFileSelect`: rejects a multi-file selection when `multiple` is
off; otherwise starts `uploadFile` for every file passing `validateFile`
and collects an error line `name: reason` for every file failing it. -/

def handleFileSelect (multiple : Bool) (maxFileSize : Option Nat)
    (accepted : List String) (files : List JSFile) : SelectResult :=
  if !multiple && decide (1 < files.length) then .rejectedMultiple
  else
    .proceed (files.filter fun f => (validateFile maxFileSize accepted f).isNone)
      (files.filterMap fun f =>
        (validateFile maxFileSize accepted f).map fun e => f.name ++ ": " ++ e)

/-- The files for which an upload (and hence an initiate call) is started. -/

def startedUploads : SelectResult → List JSFile
  | .rejectedMultiple => []
  | .proceed u _ => u

/-- The error lines alerted to the user. -/

def reportedErrors : SelectResult → List String
  | .rejectedMultiple => []
  | .proceed _ e => e

/-- C9 as stated: for every selected file, an upload is started iff the
file passes validation, and a failing file is reported with its reason. -/

def claimC9 : Prop :=
  ∀ (multiple : Bool) (maxFileSize : Option Nat) (accepted : List String)
    (files : List JSFile) (f : JSFile), f ∈ files →
    (((validateFile maxFileSize accepted f).isNone = true) ↔
      f ∈ startedUploads (handleFileSelect multiple maxFileSize accepted files)) ∧
    (∀ msg, validateFile maxFileSize accepted f = some msg →
      (f.name ++ ": " ++ msg) ∈
        reportedErrors (handleFileSelect multiple maxFileSize accepted files))

/-- A valid plain-text file. -/

def fileA : JSFile := { name := "a.txt", size := 1, mimeType := "text/plain" }

/-- A second valid plain-text file. -/

def fileB : JSFile := { name := "b.txt", size := 1, mimeType := "text/plain" }




/-- One entry of the component's `uploads` state. -/

structure UploadItem where
  id : String
  progress : ChunkedUploadProgress
deriving DecidableEq

/-- Side effects of the component's `cancelUpload`: the server cancel
request, a console log, or an error surfaced to the user (the last never
happens; it is included so that its absence can be stated). -/

inductive CancelAction where
  | serverCancelCall (uploadId : String)
  | logError (msg : String)
  | surfaceError (msg : String)
deriving DecidableEq

/-- Function `cancelUpload` of the ChunkedFileUpload component: look up the upload,
request a server-side cancel when a server upload id is known (JavaScript
truthiness: a non-empty string), swallow a failing cancel request with
only a console log, and unconditionally remove the item from the list. -/

def cancelUpload (uploads : List UploadItem) (uploadId : String)
    (serverCancel : Except String Unit) : List UploadItem × List CancelAction :=
  let upload := uploads.find? fun u => u.id == uploadId
  let actions :=
    match upload with
    | some u =>
      if u.progress.uploadId ≠ "" then
        match serverCancel with
        | .ok _ => [.serverCancelCall u.progress.uploadId]
        | .error msg => [.serverCancelCall u.progress.uploadId,
            .logError ("Failed to cancel upload: " ++ msg)]
      else []
    | none => []
  (uploads.filter fun item => item.id != uploadId, actions)


/-- Key ceiling-division bounds: with `tc = totalChunks ts cs`, the file
occupies strictly more than `tc - 1` and at most `tc` chunks. -/
theorem totalChunks_bounds (ts cs : Nat) (hts : 0 < ts) (hcs : 0 < cs) :
    (totalChunks ts cs - 1) * cs < ts ∧ ts ≤ totalChunks ts cs * cs := by
  have hdm : cs * totalChunks ts cs + (ts + cs - 1) % cs = ts + cs - 1 := by
    unfold totalChunks
    exact Nat.div_add_mod (ts + cs - 1) cs
  have hr : (ts + cs - 1) % cs < cs := Nat.mod_lt _ hcs
  obtain ⟨M, hM⟩ : ∃ M, cs * totalChunks ts cs = M := ⟨_, rfl⟩
  rw [hM] at hdm
  have h1 : (totalChunks ts cs - 1) * cs = M - cs := by
    rw [Nat.sub_one_mul, Nat.mul_comm (totalChunks ts cs) cs, hM]
  have h2 : totalChunks ts cs * cs = M := by
    rw [Nat.mul_comm, hM]
  rw [h1, h2]
  omega

/-- Partial sums of the chunk lengths: the first `k` chunks of the loop
together cover exactly `min (k * cs) ts` bytes. -/
theorem sum_chunkLen_take (ts cs : Nat) :
    ∀ k : Nat, (((List.range' 1 k).map (chunkLen ts cs)).sum) = min (k * cs) ts := by
  intro k
  induction k with
  | zero => simp
  | succ k ih =>
    rw [List.range'_1_concat, List.map_append, List.sum_append, ih]
    have hstart : chunkStart cs (1 + k) = k * cs := by
      unfold chunkStart
      congr 1
      omega
    simp only [List.map_cons, List.map_nil, List.sum_cons, List.sum_nil]
    unfold chunkLen chunkEnd
    rw [hstart]
    have hmul : (k + 1) * cs = k * cs + cs := by ring
    rw [hmul]
    omega

/-- C1: for every `total_size > 0` and `chunk_size > 0`, with
`total_chunks = ceil(total_size / chunk_size)`, the splitting rule of
api.ts:288-290 gives every chunk `i < total_chunks` exactly `chunk_size`
bytes, gives the final chunk `total_size - chunk_size * (total_chunks - 1)`
bytes, and the chunk sizes sum to `total_size`. -/
theorem c1_chunk_splitting (ts cs : Nat) (hts : 0 < ts) (hcs : 0 < cs) :
    (∀ i, 1 ≤ i → i < totalChunks ts cs → chunkLen ts cs i = cs) ∧
    chunkLen ts cs (totalChunks ts cs) = ts - cs * (totalChunks ts cs - 1) ∧
    ((List.range' 1 (totalChunks ts cs)).map (chunkLen ts cs)).sum = ts := by
  obtain ⟨hlow, hhigh⟩ := totalChunks_bounds ts cs hts hcs
  refine ⟨?_, ?_, ?_⟩
  · intro i h1 h2
    unfold chunkLen chunkEnd chunkStart
    have hle : i * cs ≤ (totalChunks ts cs - 1) * cs :=
      Nat.mul_le_mul_right cs (by omega)
    have hi : i * cs = (i - 1) * cs + cs := by
      rw [Nat.sub_one_mul]
      have : cs ≤ i * cs := Nat.le_mul_of_pos_left cs (by omega)
      omega
    omega
  · unfold chunkLen chunkEnd chunkStart
    have htc : 1 ≤ totalChunks ts cs := by
      by_contra h
      have : totalChunks ts cs = 0 := by omega
      rw [this] at hhigh
      omega
    have h1 : (totalChunks ts cs - 1) * cs + cs = totalChunks ts cs * cs := by
      rw [Nat.sub_one_mul]
      have : cs ≤ totalChunks ts cs * cs := Nat.le_mul_of_pos_left cs (by omega)
      omega
    have h2 : cs * (totalChunks ts cs - 1) = (totalChunks ts cs - 1) * cs :=
      Nat.mul_comm _ _
    omega
  · rw [sum_chunkLen_take]
    omega

/-- Witness for C1 at the concrete input `total_size = 5`,
`chunk_size = 2` (so `total_chunks = 3`, chunk sizes `[2, 2, 1]`). -/
theorem c1_chunk_splitting_witness :
    (0 < 5 ∧ 0 < 2) ∧
    ((∀ i, 1 ≤ i → i < totalChunks 5 2 → chunkLen 5 2 i = 2) ∧
     chunkLen 5 2 (totalChunks 5 2) = 5 - 2 * (totalChunks 5 2 - 1) ∧
     ((List.range' 1 (totalChunks 5 2)).map (chunkLen 5 2)).sum = 5) :=
  ⟨⟨by norm_num, by norm_num⟩, c1_chunk_splitting 5 2 (by norm_num) (by norm_num)⟩

/-- C2 counterexample: for a one-chunk file that uploads successfully,
the post-chunk progress event (api.ts:310-317) already reports
`progress = 100` with status `'uploading'` before `completeChunkedUpload`
is even called, refuting the claim. -/
theorem c2_counterexample : ¬ claimC2 (uploadFileChunked envC2 "f.bin" 1 1).1 := by
  have h : noEarly100 (uploadFileChunked envC2 "f.bin" 1 1).1 = false := by
    with_unfolding_all rfl
  unfold claimC2
  simp [h]

/-- C3 counterexample: with a mid-flight transport callback at 50% of
chunk 1 and a failure at chunk 2, the delivered `uploadedSize` sequence is
`[1/2, 1, 0]`: it is not monotone (the catch handler resets it to 0), and
the `1/2` event counts bytes of a chunk the server has not acknowledged. -/
theorem c3_counterexample : ¬ claimC3 (uploadFileChunked envC3 "f.bin" 2 1).1 := by
  have h : nondecreasing (progressSizes (uploadFileChunked envC3 "f.bin" 2 1).1) = false := by
    with_unfolding_all rfl
  intro hc
  rw [hc.1] at h
  exact Bool.noConfusion h

/-- C4 counterexample: with two chunks and a cancel requested after chunk
1, the orchestrator still issues the request for chunk 2 (the loop has no
cancellation check), refuting the claim. -/
theorem c4_counterexample : ¬ claimC4 := by
  intro h
  have h2 := (h 1 envC4 "f.bin" 2 1).1 2 (by
    have : reqNumbers (uploadFileChunkedWithCancel (some 1) envC4 "f.bin" 2 1).1 = [1, 2] := by
      with_unfolding_all rfl
    rw [this]
    simp)
  omega

/-- C5 counterexample: when the only chunk of a one-chunk upload fails,
the orchestrator issues exactly one request for it and aborts; it never
retries, refuting the claim. -/
theorem c5_counterexample : ¬ claimC5 := by
  intro h
  have hmem : Event.chunkFail 1 "chunk failed" ∈ (uploadFileChunked envC5 "f.bin" 1 1).1 :=
    of_decide_eq_true (by with_unfolding_all rfl)
  have hcount : countChunkRequests (uploadFileChunked envC5 "f.bin" 1 1).1 1 = 1 := by
    with_unfolding_all rfl
  have h2 := (h envC5 "f.bin" 1 1 1 "chunk failed" hmem).1
  omega

/-- C6 counterexample: chunk 1 of a two-chunk upload is acknowledged
(1 byte confirmed) and chunk 2 fails; the terminal error event reports
`uploadedSize = 0`, not the 1 byte of partial progress, refuting the
claim. -/
theorem c6_counterexample : ¬ claimC6 := by
  intro h
  have hres : (uploadFileChunked envC6 "f.bin" 2 1).2 = .error "chunk failed" := by
    with_unfolding_all rfl
  have hfalse : lastIsErrorWith (uploadFileChunked envC6 "f.bin" 2 1).1 "chunk failed"
      ((confirmedBytes (uploadFileChunked envC6 "f.bin" 2 1).1 : ℚ)) = false := by
    with_unfolding_all rfl
  have htrue := h envC6 "f.bin" 2 1 "chunk failed" hres
  rw [htrue] at hfalse
  exact Bool.noConfusion hfalse

/-- If no event of a trace satisfies `q`, then `q`-events are (vacuously)
always preceded by `p`-events. -/
theorem precedes_of_no_q (p q : Event → Bool) (t : List Event)
    (h : ∀ e ∈ t, q e = false) : Precedes p q t := by
  intro i hi hq
  have hmem : t.getD i default ∈ t := by
    rw [List.getD_eq_getElem _ _ hi]
    exact List.getElem_mem hi
  rw [h _ hmem] at hq
  exact Bool.noConfusion hq

/-- If `q` never holds on `t1` and some event of `t1` satisfies `p`, then
in `t1 ++ t2` every `q`-event is preceded by a `p`-event. -/
theorem precedes_append (p q : Event → Bool) (t1 t2 : List Event)
    (h1 : ∀ e ∈ t1, q e = false) (h2 : ∃ e ∈ t1, p e = true) :
    Precedes p q (t1 ++ t2) := by
  intro i hi hq
  by_cases hlt : i < t1.length
  · have heq : (t1 ++ t2).getD i default = t1.getD i default := by
      simp [List.getD_eq_getElem?_getD, List.getElem?_append_left hlt]
    rw [heq] at hq
    have hmem : t1.getD i default ∈ t1 := by
      rw [List.getD_eq_getElem _ _ hlt]
      exact List.getElem_mem hlt
    rw [h1 _ hmem] at hq
    exact Bool.noConfusion hq
  · obtain ⟨e, he, hp⟩ := h2
    obtain ⟨j, hj, hv⟩ := List.mem_iff_getElem.mp he
    refine ⟨j, by omega, ?_⟩
    have heq : (t1 ++ t2).getD j default = t1.getD j default := by
      simp [List.getD_eq_getElem?_getD, List.getElem?_append_left hj]
    rw [heq, List.getD_eq_getElem _ _ hj, hv]
    exact hp

/-- Every event produced by the chunk loop has status neither `cancelled`
nor `completed` (the loop only emits `uploading`-status progress events
and request/acknowledgement markers). -/
theorem runChunkLoop_status_benign (env : ServerEnv) (fn : String)
    (fs cs : Nat) (uid : String) :
    ∀ (chunks : List Nat) (u : Nat) (e : Event),
      e ∈ (runChunkLoop env fn fs cs uid chunks u).1 →
      isCancelledStatus e = false ∧ isCompletedStatus e = false := by
  intro chunks
  induction chunks with
  | nil =>
    intro u e he
    simp [runChunkLoop] at he
  | cons n rest ih =>
    intro u e he
    cases hres : env.chunkResult n with
    | error msg =>
      simp only [runChunkLoop, hres] at he
      rcases List.mem_cons.mp he with rfl | he2
      · exact ⟨rfl, rfl⟩
      rcases List.mem_append.mp he2 with he3 | he4
      · obtain ⟨pct, _, rfl⟩ := List.mem_map.mp he3
        exact ⟨rfl, rfl⟩
      · rw [List.mem_singleton] at he4
        subst he4
        exact ⟨rfl, rfl⟩
    | ok _ =>
      simp only [runChunkLoop, hres] at he
      rcases List.mem_cons.mp he with rfl | he2
      · exact ⟨rfl, rfl⟩
      rcases List.mem_append.mp he2 with he3 | he4
      · obtain ⟨pct, _, rfl⟩ := List.mem_map.mp he3
        exact ⟨rfl, rfl⟩
      rcases List.mem_cons.mp he4 with rfl | he5
      · exact ⟨rfl, rfl⟩
      rcases List.mem_cons.mp he5 with rfl | he6
      · exact ⟨rfl, rfl⟩
      · exact ih _ e he6

section ScannerSimp

variable (uid fn msg : String) (n s f len tc fs u acc : Nat) (fi : FileInfo)
variable (o : ProgressOrigin) (p : ChunkedUploadProgress) (l : List Event)

@[simp] theorem callEvents_nil : callEvents [] = [] := rfl

@[simp] theorem callEvents_append (l1 l2 : List Event) :
    callEvents (l1 ++ l2) = callEvents l1 ++ callEvents l2 := by
  simp [callEvents]

@[simp] theorem callEvents_cons_initiate :
    callEvents (.initiateCall fn fs u :: l) = .initiateCall fn fs u :: callEvents l := rfl

@[simp] theorem callEvents_cons_initiateOk :
    callEvents (.initiateOk uid tc :: l) = callEvents l := rfl

@[simp] theorem callEvents_cons_req :
    callEvents (.chunkRequest uid n s f :: l) = .chunkRequest uid n s f :: callEvents l := rfl

@[simp] theorem callEvents_cons_ack :
    callEvents (.chunkAck n len :: l) = callEvents l := rfl

@[simp] theorem callEvents_cons_fail :
    callEvents (.chunkFail n msg :: l) = callEvents l := rfl

@[simp] theorem callEvents_cons_completeCall :
    callEvents (.completeCall uid :: l) = .completeCall uid :: callEvents l := rfl

@[simp] theorem callEvents_cons_completeOk :
    callEvents (.completeOk fi :: l) = callEvents l := rfl

@[simp] theorem callEvents_cons_completeFail :
    callEvents (.completeFail msg :: l) = callEvents l := rfl

@[simp] theorem callEvents_cons_progress :
    callEvents (.progressEv o p :: l) = callEvents l := rfl

@[simp] theorem reqNumbers_nil : reqNumbers [] = [] := rfl

@[simp] theorem reqNumbers_append (l1 l2 : List Event) :
    reqNumbers (l1 ++ l2) = reqNumbers l1 ++ reqNumbers l2 := by
  simp [reqNumbers]

@[simp] theorem reqNumbers_cons_initiate :
    reqNumbers (.initiateCall fn fs u :: l) = reqNumbers l := rfl

@[simp] theorem reqNumbers_cons_initiateOk :
    reqNumbers (.initiateOk uid tc :: l) = reqNumbers l := rfl

@[simp] theorem reqNumbers_cons_req :
    reqNumbers (.chunkRequest uid n s f :: l) = n :: reqNumbers l := rfl

@[simp] theorem reqNumbers_cons_ack :
    reqNumbers (.chunkAck n len :: l) = reqNumbers l := rfl

@[simp] theorem reqNumbers_cons_fail :
    reqNumbers (.chunkFail n msg :: l) = reqNumbers l := rfl

@[simp] theorem reqNumbers_cons_completeCall :
    reqNumbers (.completeCall uid :: l) = reqNumbers l := rfl

@[simp] theorem reqNumbers_cons_completeOk :
    reqNumbers (.completeOk fi :: l) = reqNumbers l := rfl

@[simp] theorem reqNumbers_cons_completeFail :
    reqNumbers (.completeFail msg :: l) = reqNumbers l := rfl

@[simp] theorem reqNumbers_cons_progress :
    reqNumbers (.progressEv o p :: l) = reqNumbers l := rfl

@[simp] theorem confirmedBytes_nil : confirmedBytes [] = 0 := rfl

@[simp] theorem confirmedBytes_cons (e : Event) :
    confirmedBytes (e :: l) = ackLen e + confirmedBytes l := by
  simp [confirmedBytes]

@[simp] theorem postChunkSizes_nil : postChunkSizes [] = [] := rfl

@[simp] theorem postChunkSizes_append (l1 l2 : List Event) :
    postChunkSizes (l1 ++ l2) = postChunkSizes l1 ++ postChunkSizes l2 := by
  simp [postChunkSizes]

@[simp] theorem postChunkSizes_cons_initiate :
    postChunkSizes (.initiateCall fn fs u :: l) = postChunkSizes l := rfl

@[simp] theorem postChunkSizes_cons_initiateOk :
    postChunkSizes (.initiateOk uid tc :: l) = postChunkSizes l := rfl

@[simp] theorem postChunkSizes_cons_req :
    postChunkSizes (.chunkRequest uid n s f :: l) = postChunkSizes l := rfl

@[simp] theorem postChunkSizes_cons_ack :
    postChunkSizes (.chunkAck n len :: l) = postChunkSizes l := rfl

@[simp] theorem postChunkSizes_cons_fail :
    postChunkSizes (.chunkFail n msg :: l) = postChunkSizes l := rfl

@[simp] theorem postChunkSizes_cons_completeCall :
    postChunkSizes (.completeCall uid :: l) = postChunkSizes l := rfl

@[simp] theorem postChunkSizes_cons_completeOk :
    postChunkSizes (.completeOk fi :: l) = postChunkSizes l := rfl

@[simp] theorem postChunkSizes_cons_completeFail :
    postChunkSizes (.completeFail msg :: l) = postChunkSizes l := rfl

@[simp] theorem postChunkSizes_cons_postEv :
    postChunkSizes (.progressEv .postChunk p :: l) = p.uploadedSize :: postChunkSizes l := rfl

@[simp] theorem postChunkSizes_cons_intraEv :
    postChunkSizes (.progressEv .intraChunk p :: l) = postChunkSizes l := rfl

@[simp] theorem postChunkSizes_cons_afterCompleteEv :
    postChunkSizes (.progressEv .afterComplete p :: l) = postChunkSizes l := rfl

@[simp] theorem postChunkSizes_cons_onErrorEv :
    postChunkSizes (.progressEv .onError p :: l) = postChunkSizes l := rfl

@[simp] theorem postMatches_nil : postMatches [] acc = true := rfl

@[simp] theorem postMatches_cons_initiate :
    postMatches (.initiateCall fn fs u :: l) acc = postMatches l acc := rfl

@[simp] theorem postMatches_cons_initiateOk :
    postMatches (.initiateOk uid tc :: l) acc = postMatches l acc := rfl

@[simp] theorem postMatches_cons_req :
    postMatches (.chunkRequest uid n s f :: l) acc = postMatches l acc := rfl

@[simp] theorem postMatches_cons_ack :
    postMatches (.chunkAck n len :: l) acc = postMatches l (acc + len) := rfl

@[simp] theorem postMatches_cons_fail :
    postMatches (.chunkFail n msg :: l) acc = postMatches l acc := rfl

@[simp] theorem postMatches_cons_completeCall :
    postMatches (.completeCall uid :: l) acc = postMatches l acc := rfl

@[simp] theorem postMatches_cons_completeOk :
    postMatches (.completeOk fi :: l) acc = postMatches l acc := rfl

@[simp] theorem postMatches_cons_completeFail :
    postMatches (.completeFail msg :: l) acc = postMatches l acc := rfl

@[simp] theorem postMatches_cons_postEv :
    postMatches (.progressEv .postChunk p :: l) acc =
      (decide (p.uploadedSize = (acc : ℚ)) && postMatches l acc) := rfl

@[simp] theorem postMatches_cons_intraEv :
    postMatches (.progressEv .intraChunk p :: l) acc = postMatches l acc := rfl

@[simp] theorem postMatches_cons_afterCompleteEv :
    postMatches (.progressEv .afterComplete p :: l) acc = postMatches l acc := rfl

@[simp] theorem postMatches_cons_onErrorEv :
    postMatches (.progressEv .onError p :: l) acc = postMatches l acc := rfl

end ScannerSimp

/-- Progress events contribute no outgoing API call. -/
theorem callEvents_nil_of_progress (l : List Event)
    (h : ∀ e ∈ l, ∃ o p, e = Event.progressEv o p) : callEvents l = [] := by
  induction l with
  | nil => rfl
  | cons a r ih =>
    obtain ⟨o, p, rfl⟩ := h a (List.mem_cons_self a r)
    have hr := ih (fun e he => h e (List.mem_cons_of_mem _ he))
    simp only [callEvents, List.filter_cons] at hr ⊢
    simpa [isInitiateCall, isChunkRequestEv, isCompleteCallEv] using hr

/-- Progress events contribute no chunk-request number. -/
theorem reqNumbers_nil_of_progress (l : List Event)
    (h : ∀ e ∈ l, ∃ o p, e = Event.progressEv o p) : reqNumbers l = [] := by
  induction l with
  | nil => rfl
  | cons a r ih =>
    obtain ⟨o, p, rfl⟩ := h a (List.mem_cons_self a r)
    have hr := ih (fun e he => h e (List.mem_cons_of_mem _ he))
    simpa [reqNumbers, List.filterMap_cons] using hr

/-- Every event of an intra-chunk callback block is a progress event. -/
theorem mem_map_intraEvent_progress (uid fn : String) (fs u len : Nat)
    (l : List Nat) :
    ∀ e ∈ l.map (intraEvent uid fn fs u len), ∃ o p, e = Event.progressEv o p := by
  intro e he
  obtain ⟨pct, _, rfl⟩ := List.mem_map.mp he
  exact ⟨_, _, rfl⟩

/-- When every chunk of the list succeeds, the loop returns `ok`, emits an
acknowledgement for every chunk, and its outgoing calls are exactly one
request per chunk, in list order. -/
theorem runChunkLoop_allOk (env : ServerEnv) (fn : String) (fs cs : Nat)
    (uid : String) :
    ∀ (chunks : List Nat) (u : Nat),
      (∀ n ∈ chunks, (env.chunkResult n).isOk = true) →
      (∃ v, (runChunkLoop env fn fs cs uid chunks u).2 = .ok v) ∧
      (∀ n ∈ chunks,
        Event.chunkAck n (chunkLen fs cs n) ∈ (runChunkLoop env fn fs cs uid chunks u).1) ∧
      callEvents (runChunkLoop env fn fs cs uid chunks u).1
        = chunks.map (fun n => Event.chunkRequest uid n (chunkStart cs n) (chunkEnd fs cs n)) ∧
      reqNumbers (runChunkLoop env fn fs cs uid chunks u).1 = chunks := by
  intro chunks
  induction chunks with
  | nil =>
    intro u _
    refine ⟨⟨u, rfl⟩, ?_, rfl, rfl⟩
    intro n hn
    exact absurd hn (List.not_mem_nil n)
  | cons n rest ih =>
    intro u hok
    have hn : (env.chunkResult n).isOk = true := hok n (List.mem_cons_self n rest)
    cases hres : env.chunkResult n with
    | error msg => rw [hres] at hn; exact Bool.noConfusion hn
    | ok _ =>
      obtain ⟨⟨v, hv⟩, hacks, hcalls, hreqs⟩ :=
        ih (u + (chunkEnd fs cs n - chunkStart cs n))
          (fun m hm => hok m (List.mem_cons_of_mem _ hm))
      have hintra := mem_map_intraEvent_progress uid fn fs u
        (chunkEnd fs cs n - chunkStart cs n) (env.chunkPcts n)
      have h1 : callEvents ((env.chunkPcts n).map
          (intraEvent uid fn fs u (chunkEnd fs cs n - chunkStart cs n))) = [] :=
        callEvents_nil_of_progress _ hintra
      have h2 : reqNumbers ((env.chunkPcts n).map
          (intraEvent uid fn fs u (chunkEnd fs cs n - chunkStart cs n))) = [] :=
        reqNumbers_nil_of_progress _ hintra
      refine ⟨⟨v, ?_⟩, ?_, ?_, ?_⟩
      · simpa [runChunkLoop, hres] using hv
      · intro m hm
        rcases List.mem_cons.mp hm with rfl | hm'
        · simp only [runChunkLoop, hres]
          exact List.mem_cons_of_mem _
            (List.mem_append_right _ (List.mem_cons_self _ _))
        · simp only [runChunkLoop, hres]
          exact List.mem_cons_of_mem _ (List.mem_append_right _
            (List.mem_cons_of_mem _ (List.mem_cons_of_mem _ (hacks m hm'))))
      · simp [runChunkLoop, hres, h1, hcalls, postEvent]
      · simp [runChunkLoop, hres, h2, hreqs, postEvent]

/-- Trace and result when `initiate` fails. -/
theorem trace_initError (env : ServerEnv) (fn : String) (fs cs : Nat)
    (msg : String) (h : env.initResult = .error msg) :
    uploadFileChunked env fn fs cs =
      ([.initiateCall fn fs cs, errorEvent fn fs msg], .error msg) := by
  simp [uploadFileChunked, h]

/-- Trace and result when some chunk upload fails. -/
theorem trace_chunkError (env : ServerEnv) (fn : String) (fs cs : Nat)
    (uid : String) (tc : Nat) (msg : String)
    (h : env.initResult = .ok (uid, tc))
    (h2 : (runChunkLoop env fn fs cs uid (List.range' 1 tc) 0).2 = .error msg) :
    uploadFileChunked env fn fs cs =
      (Event.initiateCall fn fs cs :: Event.initiateOk uid tc ::
        ((runChunkLoop env fn fs cs uid (List.range' 1 tc) 0).1 ++
          [errorEvent fn fs msg]),
       .error msg) := by
  simp [uploadFileChunked, h, h2]

/-- Trace and result when all chunks succeed but `complete` fails. -/
theorem trace_completeError (env : ServerEnv) (fn : String) (fs cs : Nat)
    (uid : String) (tc v : Nat) (msg : String)
    (h : env.initResult = .ok (uid, tc))
    (h2 : (runChunkLoop env fn fs cs uid (List.range' 1 tc) 0).2 = .ok v)
    (h3 : env.completeResult = .error msg) :
    uploadFileChunked env fn fs cs =
      (Event.initiateCall fn fs cs :: Event.initiateOk uid tc ::
        ((runChunkLoop env fn fs cs uid (List.range' 1 tc) 0).1 ++
          [.completeCall uid, .completeFail msg, errorEvent fn fs msg]),
       .error msg) := by
  simp [uploadFileChunked, h, h2, h3]

/-- Trace and result of a fully successful upload. -/
theorem trace_ok (env : ServerEnv) (fn : String) (fs cs : Nat)
    (uid : String) (tc v : Nat) (fi : FileInfo)
    (h : env.initResult = .ok (uid, tc))
    (h2 : (runChunkLoop env fn fs cs uid (List.range' 1 tc) 0).2 = .ok v)
    (h3 : env.completeResult = .ok fi) :
    uploadFileChunked env fn fs cs =
      (Event.initiateCall fn fs cs :: Event.initiateOk uid tc ::
        ((runChunkLoop env fn fs cs uid (List.range' 1 tc) 0).1 ++
          [.completeCall uid, .completeOk fi, completedEvent uid fn fs]),
       .ok fi) := by
  simp [uploadFileChunked, h, h2, h3]

/-- C2 (amended): the `completed`-status terminal progress event is
delivered only after `completeChunkedUpload` has resolved; earlier
progress events (including the post-chunk event that already reports
`progress = 100` after the final chunk) all carry status `uploading`. -/
theorem c2_amended_completed_after_complete (env : ServerEnv) (fn : String)
    (fs cs : Nat) :
    Precedes isCompleteOkEv isCompletedStatus (uploadFileChunked env fn fs cs).1 := by
  cases hinit : env.initResult with
  | error msg =>
    rw [trace_initError env fn fs cs msg hinit]
    apply precedes_of_no_q
    intro e he
    rcases List.mem_cons.mp he with rfl | he2
    · rfl
    rcases List.mem_cons.mp he2 with rfl | he3
    · rfl
    · exact absurd he3 (List.not_mem_nil e)
  | ok pr =>
    obtain ⟨uid, tc⟩ := pr
    cases hr : (runChunkLoop env fn fs cs uid (List.range' 1 tc) 0).2 with
    | error msg =>
      rw [trace_chunkError env fn fs cs uid tc msg hinit hr]
      apply precedes_of_no_q
      intro e he
      rcases List.mem_cons.mp he with rfl | he2
      · rfl
      rcases List.mem_cons.mp he2 with rfl | he3
      · rfl
      rcases List.mem_append.mp he3 with he4 | he5
      · exact (runChunkLoop_status_benign env fn fs cs uid _ _ e he4).2
      · rw [List.mem_singleton] at he5
        subst he5
        rfl
    | ok v =>
      cases hc : env.completeResult with
      | error msg =>
        rw [trace_completeError env fn fs cs uid tc v msg hinit hr hc]
        apply precedes_of_no_q
        intro e he
        rcases List.mem_cons.mp he with rfl | he2
        · rfl
        rcases List.mem_cons.mp he2 with rfl | he3
        · rfl
        rcases List.mem_append.mp he3 with he4 | he5
        · exact (runChunkLoop_status_benign env fn fs cs uid _ _ e he4).2
        rcases List.mem_cons.mp he5 with rfl | he6
        · rfl
        rcases List.mem_cons.mp he6 with rfl | he7
        · rfl
        · rw [List.mem_singleton] at he7
          subst he7
          rfl
      | ok fi =>
        rw [trace_ok env fn fs cs uid tc v fi hinit hr hc]
        have hsplit :
            Event.initiateCall fn fs cs :: Event.initiateOk uid tc ::
              ((runChunkLoop env fn fs cs uid (List.range' 1 tc) 0).1 ++
                [.completeCall uid, .completeOk fi, completedEvent uid fn fs]) =
            (Event.initiateCall fn fs cs :: Event.initiateOk uid tc ::
              ((runChunkLoop env fn fs cs uid (List.range' 1 tc) 0).1 ++
                [.completeCall uid, .completeOk fi])) ++ [completedEvent uid fn fs] := by
          simp
        rw [hsplit]
        apply precedes_append
        · intro e he
          rcases List.mem_cons.mp he with rfl | he2
          · rfl
          rcases List.mem_cons.mp he2 with rfl | he3
          · rfl
          rcases List.mem_append.mp he3 with he4 | he5
          · exact (runChunkLoop_status_benign env fn fs cs uid _ _ e he4).2
          rcases List.mem_cons.mp he5 with rfl | he6
          · rfl
          · rw [List.mem_singleton] at he6
            subst he6
            rfl
        · refine ⟨.completeOk fi, ?_, rfl⟩
          refine List.mem_cons_of_mem _ (List.mem_cons_of_mem _
            (List.mem_append_right _ ?_))
          exact List.mem_cons_of_mem _ (List.mem_cons_self _ _)

/-- Witness for the amended C2: in the concrete successful one-chunk run,
the `completed`-status event sits at position 7 and is indeed preceded by
a `completeOk` at an earlier position. -/
theorem c2_amended_witness :
    ∃ j, j < 7 ∧
      isCompleteOkEv ((uploadFileChunked envC2 "f.bin" 1 1).1.getD j default) = true :=
  c2_amended_completed_after_complete envC2 "f.bin" 1 1 7
    (of_decide_eq_true (by with_unfolding_all rfl))
    (of_decide_eq_true (by with_unfolding_all rfl))

/-- C7: a successful upload performs exactly one initiate call (with the
file's name, total size and chunk size), then one chunk request per index
1..total_chunks in order, then one complete call; every chunk is
acknowledged before complete is invoked, and the upload resolves with the
file record returned by complete. -/
theorem c7_upload_protocol (env : ServerEnv) (fn : String) (fs cs : Nat)
    (uid : String) (tc : Nat) (fi : FileInfo)
    (hinit : env.initResult = .ok (uid, tc))
    (hok : ∀ n ∈ List.range' 1 tc, (env.chunkResult n).isOk = true)
    (hc : env.completeResult = .ok fi) :
    (uploadFileChunked env fn fs cs).2 = .ok fi ∧
    callEvents (uploadFileChunked env fn fs cs).1 =
      Event.initiateCall fn fs cs ::
        ((List.range' 1 tc).map fun n =>
          Event.chunkRequest uid n (chunkStart cs n) (chunkEnd fs cs n)) ++
        [Event.completeCall uid] ∧
    ∃ pre, (uploadFileChunked env fn fs cs).1
        = pre ++ [.completeCall uid, .completeOk fi, completedEvent uid fn fs] ∧
      ∀ n ∈ List.range' 1 tc, Event.chunkAck n (chunkLen fs cs n) ∈ pre := by
  obtain ⟨⟨v, hv⟩, hacks, hcalls, hreqs⟩ :=
    runChunkLoop_allOk env fn fs cs uid (List.range' 1 tc) 0 hok
  rw [trace_ok env fn fs cs uid tc v fi hinit hv hc]
  refine ⟨rfl, ?_, ?_⟩
  · simp [hcalls, completedEvent]
  · refine ⟨Event.initiateCall fn fs cs :: Event.initiateOk uid tc ::
      (runChunkLoop env fn fs cs uid (List.range' 1 tc) 0).1, by simp, ?_⟩
    intro n hn
    exact List.mem_cons_of_mem _ (List.mem_cons_of_mem _ (hacks n hn))

/-- Witness for C7: the concrete two-chunk run against `envC4` (all chunks
succeed, complete succeeds). -/
theorem c7_upload_protocol_witness :
    (uploadFileChunked envC4 "f.bin" 2 1).2 =
      .ok { id := "id4", original_filename := "f.bin", file_size := 2 } ∧
    callEvents (uploadFileChunked envC4 "f.bin" 2 1).1 =
      Event.initiateCall "f.bin" 2 1 ::
        ((List.range' 1 2).map fun n =>
          Event.chunkRequest "u" n (chunkStart 1 n) (chunkEnd 2 1 n)) ++
        [Event.completeCall "u"] ∧
    ∃ pre, (uploadFileChunked envC4 "f.bin" 2 1).1
        = pre ++ [.completeCall "u",
            .completeOk { id := "id4", original_filename := "f.bin", file_size := 2 },
            completedEvent "u" "f.bin" 2] ∧
      ∀ n ∈ List.range' 1 2, Event.chunkAck n (chunkLen 2 1 n) ∈ pre :=
  c7_upload_protocol envC4 "f.bin" 2 1 "u" 2
    { id := "id4", original_filename := "f.bin", file_size := 2 }
    rfl (by decide) rfl

@[simp] theorem seqRun_nil (st : Option (Nat × Bool)) : seqRun [] st = st := rfl

theorem seqRun_cons (e : Event) (l : List Event) (st : Option (Nat × Bool)) :
    seqRun (e :: l) st = seqRun l (seqStep st e) := rfl

theorem seqRun_append (l1 l2 : List Event) (st : Option (Nat × Bool)) :
    seqRun (l1 ++ l2) st = seqRun l2 (seqRun l1 st) := by
  simp [seqRun]

@[simp] theorem seqStep_initiate (st : Option (Nat × Bool)) (fn : String) (fs cs : Nat) :
    seqStep st (.initiateCall fn fs cs) = st := by
  rcases st with _ | ⟨a, b⟩ <;> rfl

@[simp] theorem seqStep_initiateOk (st : Option (Nat × Bool)) (uid : String) (tc : Nat) :
    seqStep st (.initiateOk uid tc) = st := by
  rcases st with _ | ⟨a, b⟩ <;> rfl

@[simp] theorem seqStep_completeCall (st : Option (Nat × Bool)) (uid : String) :
    seqStep st (.completeCall uid) = st := by
  rcases st with _ | ⟨a, b⟩ <;> rfl

@[simp] theorem seqStep_completeOk (st : Option (Nat × Bool)) (fi : FileInfo) :
    seqStep st (.completeOk fi) = st := by
  rcases st with _ | ⟨a, b⟩ <;> rfl

@[simp] theorem seqStep_completeFail (st : Option (Nat × Bool)) (msg : String) :
    seqStep st (.completeFail msg) = st := by
  rcases st with _ | ⟨a, b⟩ <;> rfl

@[simp] theorem seqStep_progressEv (st : Option (Nat × Bool))
    (o : ProgressOrigin) (p : ChunkedUploadProgress) :
    seqStep st (.progressEv o p) = st := by
  rcases st with _ | ⟨a, b⟩ <;> rfl

theorem seqRun_intraList (uid fn : String) (fs u len : Nat) (l : List Nat)
    (st : Option (Nat × Bool)) :
    seqRun (l.map (intraEvent uid fn fs u len)) st = st := by
  induction l generalizing st with
  | nil => rfl
  | cons a r ih =>
    rw [List.map_cons, seqRun_cons]
    rw [show seqStep st (intraEvent uid fn fs u len a) = st from by
      rcases st with _ | ⟨x, y⟩ <;> rfl]
    exact ih st

/-- The chunk loop respects the sequentiality discipline: starting at the
first chunk of `range' m c` with no request in flight, the automaton never
rejects and ends with no request in flight. -/
theorem runChunkLoop_seq (env : ServerEnv) (fn : String) (fs cs : Nat)
    (uid : String) :
    ∀ (c m u : Nat), ∃ k,
      seqRun (runChunkLoop env fn fs cs uid (List.range' m c) u).1
        (some (m, false)) = some (k, false) := by
  intro c
  induction c with
  | zero =>
    intro m u
    exact ⟨m, rfl⟩
  | succ c ih =>
    intro m u
    rw [List.range'_succ]
    cases hres : env.chunkResult m with
    | error msg =>
      refine ⟨m, ?_⟩
      simp only [runChunkLoop, hres]
      rw [show Event.chunkRequest uid m (chunkStart cs m) (chunkEnd fs cs m) ::
            (env.chunkPcts m).map (intraEvent uid fn fs u (chunkEnd fs cs m - chunkStart cs m)) ++
            [Event.chunkFail m msg]
          = ([Event.chunkRequest uid m (chunkStart cs m) (chunkEnd fs cs m)] ++
             (env.chunkPcts m).map (intraEvent uid fn fs u (chunkEnd fs cs m - chunkStart cs m))) ++
            [Event.chunkFail m msg] from by simp]
      rw [seqRun_append, seqRun_append, seqRun_intraList]
      simp [seqRun, seqRun_cons, seqStep]
    | ok _ =>
      obtain ⟨k, hk⟩ := ih (m + 1) (u + (chunkEnd fs cs m - chunkStart cs m))
      refine ⟨k, ?_⟩
      simp only [runChunkLoop, hres]
      rw [show Event.chunkRequest uid m (chunkStart cs m) (chunkEnd fs cs m) ::
            (env.chunkPcts m).map (intraEvent uid fn fs u (chunkEnd fs cs m - chunkStart cs m)) ++
            Event.chunkAck m (chunkEnd fs cs m - chunkStart cs m) ::
            postEvent uid fn fs (u + (chunkEnd fs cs m - chunkStart cs m)) ::
            (runChunkLoop env fn fs cs uid (List.range' (m + 1) c)
              (u + (chunkEnd fs cs m - chunkStart cs m))).1
          = (([Event.chunkRequest uid m (chunkStart cs m) (chunkEnd fs cs m)] ++
              (env.chunkPcts m).map (intraEvent uid fn fs u (chunkEnd fs cs m - chunkStart cs m))) ++
             [Event.chunkAck m (chunkEnd fs cs m - chunkStart cs m),
              postEvent uid fn fs (u + (chunkEnd fs cs m - chunkStart cs m))]) ++
            (runChunkLoop env fn fs cs uid (List.range' (m + 1) c)
              (u + (chunkEnd fs cs m - chunkStart cs m))).1 from by simp]
      rw [seqRun_append, seqRun_append, seqRun_append, seqRun_intraList]
      rw [show seqRun [Event.chunkRequest uid m (chunkStart cs m) (chunkEnd fs cs m)]
            (some (m, false)) = some (m, true) from by simp [seqRun, seqRun_cons, seqStep]]
      rw [show seqRun [Event.chunkAck m (chunkEnd fs cs m - chunkStart cs m),
            postEvent uid fn fs (u + (chunkEnd fs cs m - chunkStart cs m))]
            (some (m, true)) = some (m + 1, false) from by
        simp [seqRun, seqRun_cons, seqStep, postEvent]]
      exact hk

/-- When initiate reports `tc` chunks and every chunk succeeds, the
requested chunk numbers of the whole run are exactly `1, ..., tc`. -/
theorem reqNumbers_allOk (env : ServerEnv) (fn : String) (fs cs : Nat)
    (uid : String) (tc : Nat)
    (hinit : env.initResult = .ok (uid, tc))
    (hok : ∀ n ∈ List.range' 1 tc, (env.chunkResult n).isOk = true) :
    reqNumbers (uploadFileChunked env fn fs cs).1 = List.range' 1 tc := by
  obtain ⟨⟨v, hv⟩, hacks, hcalls, hreqs⟩ :=
    runChunkLoop_allOk env fn fs cs uid (List.range' 1 tc) 0 hok
  cases hc : env.completeResult with
  | error msg =>
    rw [trace_completeError env fn fs cs uid tc v msg hinit hv hc]
    simp [hreqs, errorEvent]
  | ok fi =>
    rw [trace_ok env fn fs cs uid tc v fi hinit hv hc]
    simp [hreqs, completedEvent]

/-- C8: the client issues chunk requests strictly sequentially in
increasing order starting at 1, with at most one request in flight (each
request is resolved before the next is issued); and when initiate reports
`tc` chunks and every chunk succeeds, the requested chunk numbers are
exactly `1, ..., tc`. -/
theorem c8_sequential_requests (env : ServerEnv) (fn : String) (fs cs : Nat) :
    (seqRun (uploadFileChunked env fn fs cs).1 (some (1, false))).isSome = true ∧
    (∀ uid tc, env.initResult = .ok (uid, tc) →
      (∀ n ∈ List.range' 1 tc, (env.chunkResult n).isOk = true) →
      reqNumbers (uploadFileChunked env fn fs cs).1 = List.range' 1 tc) := by
  constructor
  · cases hinit : env.initResult with
    | error msg =>
      rw [trace_initError env fn fs cs msg hinit]
      simp [seqRun_cons, errorEvent]
    | ok pr =>
      obtain ⟨uid, tc⟩ := pr
      obtain ⟨k, hk⟩ := runChunkLoop_seq env fn fs cs uid tc 1 0
      cases hr : (runChunkLoop env fn fs cs uid (List.range' 1 tc) 0).2 with
      | error msg =>
        rw [trace_chunkError env fn fs cs uid tc msg hinit hr]
        rw [seqRun_cons, seqRun_cons, seqStep_initiate, seqStep_initiateOk,
          seqRun_append, hk]
        simp [seqRun, seqRun_cons, errorEvent]
      | ok v =>
        cases hc : env.completeResult with
        | error msg =>
          rw [trace_completeError env fn fs cs uid tc v msg hinit hr hc]
          rw [seqRun_cons, seqRun_cons, seqStep_initiate, seqStep_initiateOk,
            seqRun_append, hk]
          simp [seqRun, seqRun_cons, errorEvent]
        | ok fi =>
          rw [trace_ok env fn fs cs uid tc v fi hinit hr hc]
          rw [seqRun_cons, seqRun_cons, seqStep_initiate, seqStep_initiateOk,
            seqRun_append, hk]
          simp [seqRun, seqRun_cons, completedEvent]
  · intro uid tc hinit hok
    exact reqNumbers_allOk env fn fs cs uid tc hinit hok

/-- Witness for C8: the concrete two-chunk all-success run requests
chunks `[1, 2]` and satisfies the sequentiality automaton. -/
theorem c8_sequential_requests_witness :
    (seqRun (uploadFileChunked envC4 "f.bin" 2 1).1 (some (1, false))).isSome = true ∧
    reqNumbers (uploadFileChunked envC4 "f.bin" 2 1).1 = List.range' 1 2 :=
  ⟨(c8_sequential_requests envC4 "f.bin" 2 1).1,
   (c8_sequential_requests envC4 "f.bin" 2 1).2 "u" 2 rfl (by decide)⟩

/-- No run of the orchestrator ever delivers a progress event with status
`cancelled`: the only statuses it emits are `uploading`, `completed` and
`error`. -/
theorem uploadFileChunked_no_cancelled (env : ServerEnv) (fn : String)
    (fs cs : Nat) :
    ∀ e ∈ (uploadFileChunked env fn fs cs).1, isCancelledStatus e = false := by
  cases hinit : env.initResult with
  | error msg =>
    rw [trace_initError env fn fs cs msg hinit]
    intro e he
    rcases List.mem_cons.mp he with rfl | he2
    · rfl
    rcases List.mem_cons.mp he2 with rfl | he3
    · rfl
    · exact absurd he3 (List.not_mem_nil e)
  | ok pr =>
    obtain ⟨uid, tc⟩ := pr
    cases hr : (runChunkLoop env fn fs cs uid (List.range' 1 tc) 0).2 with
    | error msg =>
      rw [trace_chunkError env fn fs cs uid tc msg hinit hr]
      intro e he
      rcases List.mem_cons.mp he with rfl | he2
      · rfl
      rcases List.mem_cons.mp he2 with rfl | he3
      · rfl
      rcases List.mem_append.mp he3 with he4 | he5
      · exact (runChunkLoop_status_benign env fn fs cs uid _ _ e he4).1
      · rw [List.mem_singleton] at he5
        subst he5
        rfl
    | ok v =>
      cases hc : env.completeResult with
      | error msg =>
        rw [trace_completeError env fn fs cs uid tc v msg hinit hr hc]
        intro e he
        rcases List.mem_cons.mp he with rfl | he2
        · rfl
        rcases List.mem_cons.mp he2 with rfl | he3
        · rfl
        rcases List.mem_append.mp he3 with he4 | he5
        · exact (runChunkLoop_status_benign env fn fs cs uid _ _ e he4).1
        rcases List.mem_cons.mp he5 with rfl | he6
        · rfl
        rcases List.mem_cons.mp he6 with rfl | he7
        · rfl
        · rw [List.mem_singleton] at he7
          subst he7
          rfl
      | ok fi =>
        rw [trace_ok env fn fs cs uid tc v fi hinit hr hc]
        intro e he
        rcases List.mem_cons.mp he with rfl | he2
        · rfl
        rcases List.mem_cons.mp he2 with rfl | he3
        · rfl
        rcases List.mem_append.mp he3 with he4 | he5
        · exact (runChunkLoop_status_benign env fn fs cs uid _ _ e he4).1
        rcases List.mem_cons.mp he5 with rfl | he6
        · rfl
        rcases List.mem_cons.mp he6 with rfl | he7
        · rfl
        · rw [List.mem_singleton] at he7
          subst he7
          rfl

/-- C4 (amended): the orchestrator has no cancellation path: its trace is
the same whatever cancel request is made, it never emits a
`cancelled`-status progress event, and when all chunks succeed it issues a
request for every chunk regardless of any cancel request.  (The
component's cancel handler only sends a server-side cancel and removes the
item from the local list, see `cancelUpload`.) -/
theorem c4_amended_no_cancellation_path (c c' : Option Nat) (env : ServerEnv)
    (fn : String) (fs cs : Nat) :
    uploadFileChunkedWithCancel c env fn fs cs
      = uploadFileChunkedWithCancel c' env fn fs cs ∧
    (∀ e ∈ (uploadFileChunkedWithCancel c env fn fs cs).1,
      isCancelledStatus e = false) ∧
    (∀ uid tc, env.initResult = .ok (uid, tc) →
      (∀ n ∈ List.range' 1 tc, (env.chunkResult n).isOk = true) →
      ∀ n ∈ List.range' 1 tc,
        n ∈ reqNumbers (uploadFileChunkedWithCancel c env fn fs cs).1) := by
  refine ⟨rfl, uploadFileChunked_no_cancelled env fn fs cs, ?_⟩
  intro uid tc hinit hok n hn
  rw [show (uploadFileChunkedWithCancel c env fn fs cs).1
      = (uploadFileChunked env fn fs cs).1 from rfl]
  rw [reqNumbers_allOk env fn fs cs uid tc hinit hok]
  exact hn

/-- Witness for the amended C4: with a cancel requested after chunk 1 of a
two-chunk upload, the request for chunk 2 is still issued. -/
theorem c4_amended_witness :
    2 ∈ reqNumbers (uploadFileChunkedWithCancel (some 1) envC4 "f.bin" 2 1).1 :=
  (c4_amended_no_cancellation_path (some 1) none envC4 "f.bin" 2 1).2.2
    "u" 2 rfl (by decide) 2 (by decide)

@[simp] theorem countInitiates_nil : countInitiates [] = 0 := rfl

@[simp] theorem countInitiates_append (l1 l2 : List Event) :
    countInitiates (l1 ++ l2) = countInitiates l1 + countInitiates l2 := by
  simp [countInitiates]

@[simp] theorem countInitiates_cons (e : Event) (l : List Event) :
    countInitiates (e :: l)
      = (if isInitiateCall e then 1 else 0) + countInitiates l := by
  simp only [countInitiates, List.filter_cons]
  split <;> simp [Nat.add_comm]

/-- The chunk loop never issues an initiate call. -/
theorem runChunkLoop_no_initiateCall (env : ServerEnv) (fn : String)
    (fs cs : Nat) (uid : String) :
    ∀ (chunks : List Nat) (u : Nat) (e : Event),
      e ∈ (runChunkLoop env fn fs cs uid chunks u).1 →
      isInitiateCall e = false := by
  intro chunks
  induction chunks with
  | nil =>
    intro u e he
    simp [runChunkLoop] at he
  | cons n rest ih =>
    intro u e he
    cases hres : env.chunkResult n with
    | error msg =>
      simp only [runChunkLoop, hres] at he
      rcases List.mem_cons.mp he with rfl | he2
      · rfl
      rcases List.mem_append.mp he2 with he3 | he4
      · obtain ⟨pct, _, rfl⟩ := List.mem_map.mp he3
        rfl
      · rw [List.mem_singleton] at he4
        subst he4
        rfl
    | ok _ =>
      simp only [runChunkLoop, hres] at he
      rcases List.mem_cons.mp he with rfl | he2
      · rfl
      rcases List.mem_append.mp he2 with he3 | he4
      · obtain ⟨pct, _, rfl⟩ := List.mem_map.mp he3
        rfl
      rcases List.mem_cons.mp he4 with rfl | he5
      · rfl
      rcases List.mem_cons.mp he5 with rfl | he6
      · rfl
      · exact ih _ e he6

/-- The chunk loop's request numbers form a prefix of its chunk list: a
failed chunk stops the loop, and no chunk is ever requested twice. -/
theorem runChunkLoop_reqNumbers_take (env : ServerEnv) (fn : String)
    (fs cs : Nat) (uid : String) :
    ∀ (chunks : List Nat) (u : Nat), ∃ k,
      reqNumbers (runChunkLoop env fn fs cs uid chunks u).1 = chunks.take k := by
  intro chunks
  induction chunks with
  | nil =>
    intro u
    exact ⟨0, rfl⟩
  | cons n rest ih =>
    intro u
    cases hres : env.chunkResult n with
    | error msg =>
      refine ⟨1, ?_⟩
      have h2 : reqNumbers ((env.chunkPcts n).map
          (intraEvent uid fn fs u (chunkEnd fs cs n - chunkStart cs n))) = [] :=
        reqNumbers_nil_of_progress _
          (mem_map_intraEvent_progress uid fn fs u _ (env.chunkPcts n))
      simp [runChunkLoop, hres, h2]
    | ok _ =>
      obtain ⟨k, hk⟩ := ih (u + (chunkEnd fs cs n - chunkStart cs n))
      refine ⟨k + 1, ?_⟩
      have h2 : reqNumbers ((env.chunkPcts n).map
          (intraEvent uid fn fs u (chunkEnd fs cs n - chunkStart cs n))) = [] :=
        reqNumbers_nil_of_progress _
          (mem_map_intraEvent_progress uid fn fs u _ (env.chunkPcts n))
      simp [runChunkLoop, hres, h2, hk, postEvent]

/-- C5 (amended): the orchestrator never retries: every chunk number is
requested at most once per run, and initiate is called exactly once per
run (a failed chunk simply aborts the upload, which is surfaced and
rethrown; the session is never restarted). -/
theorem c5_amended_no_retry (env : ServerEnv) (fn : String) (fs cs n : Nat) :
    countChunkRequests (uploadFileChunked env fn fs cs).1 n ≤ 1 ∧
    countInitiates (uploadFileChunked env fn fs cs).1 = 1 := by
  have hcount : ∀ (uid : String) (tc : Nat),
      countChunkRequests
        (runChunkLoop env fn fs cs uid (List.range' 1 tc) 0).1 n ≤ 1 := by
    intro uid tc
    obtain ⟨k, hk⟩ := runChunkLoop_reqNumbers_take env fn fs cs uid (List.range' 1 tc) 0
    unfold countChunkRequests
    rw [hk]
    calc ((List.range' 1 tc).take k).count n
        ≤ (List.range' 1 tc).count n :=
          (List.take_sublist k _).count_le n
      _ ≤ 1 := List.nodup_iff_count_le_one.mp (List.nodup_range' 1 tc) n
  have hloop0 : ∀ (uid : String) (tc : Nat),
      countInitiates (runChunkLoop env fn fs cs uid (List.range' 1 tc) 0).1 = 0 := by
    intro uid tc
    unfold countInitiates
    rw [List.length_eq_zero, List.filter_eq_nil_iff]
    intro e he
    rw [runChunkLoop_no_initiateCall env fn fs cs uid _ _ e he]
    exact Bool.false_ne_true
  cases hinit : env.initResult with
  | error msg =>
    rw [trace_initError env fn fs cs msg hinit]
    constructor
    · simp [countChunkRequests, reqNumbers, errorEvent]
    · simp [errorEvent, isInitiateCall]
  | ok pr =>
    obtain ⟨uid, tc⟩ := pr
    cases hr : (runChunkLoop env fn fs cs uid (List.range' 1 tc) 0).2 with
    | error msg =>
      rw [trace_chunkError env fn fs cs uid tc msg hinit hr]
      constructor
      · have := hcount uid tc
        unfold countChunkRequests at this ⊢
        simpa [errorEvent] using this
      · simp [errorEvent, isInitiateCall, hloop0 uid tc]
    | ok v =>
      cases hc : env.completeResult with
      | error msg =>
        rw [trace_completeError env fn fs cs uid tc v msg hinit hr hc]
        constructor
        · have := hcount uid tc
          unfold countChunkRequests at this ⊢
          simpa [errorEvent] using this
        · simp [errorEvent, isInitiateCall, hloop0 uid tc]
      | ok fi =>
        rw [trace_ok env fn fs cs uid tc v fi hinit hr hc]
        constructor
        · have := hcount uid tc
          unfold countChunkRequests at this ⊢
          simpa [completedEvent] using this
        · simp [completedEvent, isInitiateCall, hloop0 uid tc]

/-- C6 (amended): whenever an upload fails (at initiate, any chunk, or
complete), the failure is propagated to the caller and the last event
delivered is the catch handler's terminal error progress event with the
human-readable reason — but with `uploadedSize = 0` and `progress = 0`
(and an empty `uploadId`), not the partial progress achieved. -/
theorem c6_amended_error_surfaced (env : ServerEnv) (fn : String)
    (fs cs : Nat) (msg : String)
    (h : (uploadFileChunked env fn fs cs).2 = .error msg) :
    (uploadFileChunked env fn fs cs).1.getLast? = some (errorEvent fn fs msg) := by
  cases hinit : env.initResult with
  | error m =>
    rw [trace_initError env fn fs cs m hinit] at h ⊢
    simp only at h
    injection h with h2
    subst h2
    rfl
  | ok pr =>
    obtain ⟨uid, tc⟩ := pr
    cases hr : (runChunkLoop env fn fs cs uid (List.range' 1 tc) 0).2 with
    | error m =>
      rw [trace_chunkError env fn fs cs uid tc m hinit hr] at h ⊢
      simp only at h
      injection h with h2
      subst h2
      rw [show Event.initiateCall fn fs cs :: Event.initiateOk uid tc ::
            ((runChunkLoop env fn fs cs uid (List.range' 1 tc) 0).1 ++
              [errorEvent fn fs m])
          = (Event.initiateCall fn fs cs :: Event.initiateOk uid tc ::
              (runChunkLoop env fn fs cs uid (List.range' 1 tc) 0).1) ++
            [errorEvent fn fs m] from by simp]
      exact List.getLast?_concat _
    | ok v =>
      cases hc : env.completeResult with
      | error m =>
        rw [trace_completeError env fn fs cs uid tc v m hinit hr hc] at h ⊢
        simp only at h
        injection h with h2
        subst h2
        rw [show Event.initiateCall fn fs cs :: Event.initiateOk uid tc ::
              ((runChunkLoop env fn fs cs uid (List.range' 1 tc) 0).1 ++
                [.completeCall uid, .completeFail m, errorEvent fn fs m])
            = (Event.initiateCall fn fs cs :: Event.initiateOk uid tc ::
                (runChunkLoop env fn fs cs uid (List.range' 1 tc) 0).1 ++
                [.completeCall uid, .completeFail m]) ++
              [errorEvent fn fs m] from by simp]
        exact List.getLast?_concat _
      | ok fi =>
        rw [trace_ok env fn fs cs uid tc v fi hinit hr hc] at h
        simp only at h
        exact absurd h (by simp)

/-- Witness for the amended C6: the single failing chunk of `envC5`
propagates `"chunk failed"` and the last event is the terminal error
event with that reason and zero reported progress. -/
theorem c6_amended_witness :
    (uploadFileChunked envC5 "f.bin" 1 1).1.getLast? =
      some (errorEvent "f.bin" 1 "chunk failed") :=
  c6_amended_error_surfaced envC5 "f.bin" 1 1 "chunk failed"
    (by with_unfolding_all rfl)

/-- Intra-chunk callback events pass through `postMatches` unchanged. -/
theorem postMatches_intraList (uid fn : String) (fs u len : Nat)
    (l : List Nat) (acc : Nat) (rest : List Event) :
    postMatches (l.map (intraEvent uid fn fs u len) ++ rest) acc
      = postMatches rest acc := by
  induction l with
  | nil => rfl
  | cons a r ih =>
    rw [List.map_cons, List.cons_append,
      show intraEvent uid fn fs u len a
        = Event.progressEv .intraChunk
            { uploadId := uid, filename := fn, totalSize := fs,
              uploadedSize := (u : ℚ) + ((a : ℚ) / 100) * (len : ℚ),
              progress := ((u : ℚ) + ((a : ℚ) / 100) * (len : ℚ)) / (fs : ℚ) * 100,
              status := .uploading, error := none } from rfl,
      postMatches_cons_intraEv]
    exact ih

/-- Intra-chunk callback events contribute no post-chunk size. -/
theorem postChunkSizes_intraList (uid fn : String) (fs u len : Nat)
    (l : List Nat) :
    postChunkSizes (l.map (intraEvent uid fn fs u len)) = [] := by
  induction l with
  | nil => rfl
  | cons a r ih =>
    rw [List.map_cons,
      show intraEvent uid fn fs u len a
        = Event.progressEv .intraChunk
            { uploadId := uid, filename := fn, totalSize := fs,
              uploadedSize := (u : ℚ) + ((a : ℚ) / 100) * (len : ℚ),
              progress := ((u : ℚ) + ((a : ℚ) / 100) * (len : ℚ)) / (fs : ℚ) * 100,
              status := .uploading, error := none } from rfl,
      postChunkSizes_cons_intraEv]
    exact ih

/-- A post-chunk event whose reported size equals the current
acknowledged-byte accumulator passes the `postMatches` check. -/
theorem postMatches_cons_postEvent_self (uid fn : String) (fs v : Nat)
    (l : List Event) :
    postMatches (postEvent uid fn fs v :: l) v = postMatches l v := by
  show (decide (((v : Nat) : ℚ) = ((v : Nat) : ℚ)) && postMatches l v)
    = postMatches l v
  rw [decide_eq_true rfl, Bool.true_and]

/-- Through the chunk loop, every post-chunk progress event reports
exactly the bytes acknowledged so far. -/
theorem runChunkLoop_postMatches (env : ServerEnv) (fn : String)
    (fs cs : Nat) (uid : String) :
    ∀ (chunks : List Nat) (u : Nat) (rest : List Event),
      (∀ acc, postMatches rest acc = true) →
      postMatches ((runChunkLoop env fn fs cs uid chunks u).1 ++ rest) u = true := by
  intro chunks
  induction chunks with
  | nil =>
    intro u rest hrest
    simpa [runChunkLoop] using hrest u
  | cons n rest2 ih =>
    intro u rest hrest
    cases hres : env.chunkResult n with
    | error msg =>
      simp only [runChunkLoop, hres, List.cons_append, List.append_assoc,
        List.nil_append]
      rw [postMatches_cons_req, postMatches_intraList, postMatches_cons_fail]
      exact hrest u
    | ok _ =>
      simp only [runChunkLoop, hres, List.cons_append, List.append_assoc,
        List.nil_append]
      rw [postMatches_cons_req, postMatches_intraList, postMatches_cons_ack,
        postMatches_cons_postEvent_self]
      exact ih _ rest hrest

/-- Through the chunk loop, the post-chunk sizes form a non-decreasing
chain starting at the accumulator. -/
theorem runChunkLoop_chain (env : ServerEnv) (fn : String)
    (fs cs : Nat) (uid : String) :
    ∀ (chunks : List Nat) (u : Nat),
      List.Chain' (· ≤ ·)
        (((u : Nat) : ℚ) :: postChunkSizes (runChunkLoop env fn fs cs uid chunks u).1) := by
  intro chunks
  induction chunks with
  | nil =>
    intro u
    simp [runChunkLoop]
  | cons n rest ih =>
    intro u
    cases hres : env.chunkResult n with
    | error msg =>
      simp only [runChunkLoop, hres, List.cons_append]
      rw [postChunkSizes_cons_req, postChunkSizes_append,
        postChunkSizes_intraList]
      simp
    | ok _ =>
      simp only [runChunkLoop, hres, List.cons_append]
      rw [postChunkSizes_cons_req, postChunkSizes_append,
        postChunkSizes_intraList, List.nil_append,
        postChunkSizes_cons_ack,
        show postEvent uid fn fs (u + (chunkEnd fs cs n - chunkStart cs n))
          = Event.progressEv .postChunk
              { uploadId := uid, filename := fn, totalSize := fs,
                uploadedSize := ((u + (chunkEnd fs cs n - chunkStart cs n) : Nat) : ℚ),
                progress := ((u + (chunkEnd fs cs n - chunkStart cs n) : Nat) : ℚ) / (fs : ℚ) * 100,
                status := .uploading, error := none } from rfl,
        postChunkSizes_cons_postEv]
      rw [List.chain'_cons]
      constructor
      · show ((u : Nat) : ℚ) ≤ ((u + (chunkEnd fs cs n - chunkStart cs n) : Nat) : ℚ)
        exact_mod_cast Nat.le_add_right u (chunkEnd fs cs n - chunkStart cs n)
      · exact ih (u + (chunkEnd fs cs n - chunkStart cs n))

/-- C3 (amended): the post-acknowledgement progress events (api.ts:310-317)
report exactly the cumulative bytes confirmed by the server at their
position in the trace, and their values are non-decreasing.  (The
intra-chunk axios callback events additionally count in-flight attempted
bytes, and the terminal error event resets the reported size to 0, which
is why the claim fails for the full event sequence.) -/
theorem c3_amended_confirmed_progress (env : ServerEnv) (fn : String)
    (fs cs : Nat) :
    postMatches (uploadFileChunked env fn fs cs).1 0 = true ∧
    List.Chain' (· ≤ ·) (postChunkSizes (uploadFileChunked env fn fs cs).1) := by
  cases hinit : env.initResult with
  | error msg =>
    rw [trace_initError env fn fs cs msg hinit]
    exact ⟨rfl, by simp [errorEvent]⟩
  | ok pr =>
    obtain ⟨uid, tc⟩ := pr
    have hchain := (runChunkLoop_chain env fn fs cs uid (List.range' 1 tc) 0).tail
    cases hr : (runChunkLoop env fn fs cs uid (List.range' 1 tc) 0).2 with
    | error msg =>
      rw [trace_chunkError env fn fs cs uid tc msg hinit hr]
      constructor
      · rw [show postMatches
            (Event.initiateCall fn fs cs :: Event.initiateOk uid tc ::
              ((runChunkLoop env fn fs cs uid (List.range' 1 tc) 0).1 ++
                [errorEvent fn fs msg])) 0
          = postMatches
              ((runChunkLoop env fn fs cs uid (List.range' 1 tc) 0).1 ++
                [errorEvent fn fs msg]) 0 from rfl]
        exact runChunkLoop_postMatches env fn fs cs uid _ 0 _ (fun acc => rfl)
      · rw [postChunkSizes_cons_initiate, postChunkSizes_cons_initiateOk,
          postChunkSizes_append]
        simpa [errorEvent] using hchain
    | ok v =>
      cases hc : env.completeResult with
      | error msg =>
        rw [trace_completeError env fn fs cs uid tc v msg hinit hr hc]
        constructor
        · rw [show postMatches
              (Event.initiateCall fn fs cs :: Event.initiateOk uid tc ::
                ((runChunkLoop env fn fs cs uid (List.range' 1 tc) 0).1 ++
                  [.completeCall uid, .completeFail msg, errorEvent fn fs msg])) 0
            = postMatches
                ((runChunkLoop env fn fs cs uid (List.range' 1 tc) 0).1 ++
                  [.completeCall uid, .completeFail msg, errorEvent fn fs msg]) 0 from rfl]
          exact runChunkLoop_postMatches env fn fs cs uid _ 0 _ (fun acc => rfl)
        · rw [postChunkSizes_cons_initiate, postChunkSizes_cons_initiateOk,
            postChunkSizes_append]
          simpa [errorEvent] using hchain
      | ok fi =>
        rw [trace_ok env fn fs cs uid tc v fi hinit hr hc]
        constructor
        · rw [show postMatches
              (Event.initiateCall fn fs cs :: Event.initiateOk uid tc ::
                ((runChunkLoop env fn fs cs uid (List.range' 1 tc) 0).1 ++
                  [.completeCall uid, .completeOk fi, completedEvent uid fn fs])) 0
            = postMatches
                ((runChunkLoop env fn fs cs uid (List.range' 1 tc) 0).1 ++
                  [.completeCall uid, .completeOk fi, completedEvent uid fn fs]) 0 from rfl]
          exact runChunkLoop_postMatches env fn fs cs uid _ 0 _ (fun acc => rfl)
        · rw [postChunkSizes_cons_initiate, postChunkSizes_cons_initiateOk,
            postChunkSizes_append]
          simpa [completedEvent] using hchain

/-- C9 counterexample: with `multiple = false` and two files selected, the
single-file guard rejects the whole selection, so the first file passes
validation yet no upload is started for it. -/
theorem c9_counterexample : ¬ claimC9 := fun h =>
  absurd ((h false none [] [fileA, fileB] fileA (List.mem_cons_self _ _)).1.mp rfl)
    (List.not_mem_nil fileA)

/-- C9 (amended): provided the selection passes the single-file guard
(`multiple` enabled or at most one file selected), an upload is started
for a selected file iff it passes `validateFile`, and a failing file is
reported to the user as `name: reason` and starts no upload. -/
theorem c9_amended_validation_gate (multiple : Bool) (maxFileSize : Option Nat)
    (accepted : List String) (files : List JSFile) (f : JSFile)
    (hsel : multiple = true ∨ files.length ≤ 1) (hf : f ∈ files) :
    (((validateFile maxFileSize accepted f).isNone = true) ↔
      f ∈ startedUploads (handleFileSelect multiple maxFileSize accepted files)) ∧
    (∀ msg, validateFile maxFileSize accepted f = some msg →
      (f.name ++ ": " ++ msg) ∈
        reportedErrors (handleFileSelect multiple maxFileSize accepted files)) := by
  have hguard : handleFileSelect multiple maxFileSize accepted files
      = .proceed
          (files.filter fun g => (validateFile maxFileSize accepted g).isNone)
          (files.filterMap fun g =>
            (validateFile maxFileSize accepted g).map fun e => g.name ++ ": " ++ e) := by
    unfold handleFileSelect
    rcases hsel with rfl | hlen
    · simp
    · have hnot : ¬ (1 < files.length) := by omega
      simp [hnot]
  rw [hguard]
  constructor
  · simp only [startedUploads]
    constructor
    · intro hv
      exact List.mem_filter.mpr ⟨hf, hv⟩
    · intro hmem
      exact (List.mem_filter.mp hmem).2
  · intro msg hmsg
    simp only [reportedErrors]
    exact List.mem_filterMap.mpr ⟨f, hf, by rw [hmsg]; rfl⟩

/-- Witness for the amended C9 at a concrete accepted-types list and
selection. -/
theorem c9_amended_witness :
    (((validateFile none [".txt"] fileA).isNone = true) ↔
      fileA ∈ startedUploads (handleFileSelect true none [".txt"] [fileA, fileB])) ∧
    (∀ msg, validateFile none [".txt"] fileA = some msg →
      (fileA.name ++ ": " ++ msg) ∈
        reportedErrors (handleFileSelect true none [".txt"] [fileA, fileB])) :=
  c9_amended_validation_gate true none [".txt"] [fileA, fileB] fileA
    (Or.inl rfl) (List.mem_cons_self _ _)

/-- C10: cancelling always removes the upload from the local list (exactly
the entries with the cancelled id disappear), and no error is ever
surfaced to the user — even when the server-side cancel request rejects,
the failure is only logged. -/
theorem c10_cancel_always_removes (uploads : List UploadItem)
    (uploadId : String) (serverCancel : Except String Unit) :
    (∀ item, item ∈ (cancelUpload uploads uploadId serverCancel).1 ↔
      item ∈ uploads ∧ item.id ≠ uploadId) ∧
    (∀ msg, CancelAction.surfaceError msg ∉
      (cancelUpload uploads uploadId serverCancel).2) := by
  constructor
  · intro item
    unfold cancelUpload
    simp [List.mem_filter]
  · intro msg
    unfold cancelUpload
    rcases hfind : uploads.find? (fun u => u.id == uploadId) with _ | u
    · simp [hfind]
    · simp only [hfind]
      by_cases hid : u.progress.uploadId = ""
      · simp [hid]
      · cases serverCancel with
        | ok _ => simp [hid]
        | error m => simp [hid]

end LocalDrive

